import Mathlib

/-!
A shallow embedding of `iterableio.py` (the `iterable-io` package): the
`RawIterableReader` class (`readinto`, `tell`, `close`) and the
`open_iterable` factory function, together with proofs of the behavioural
properties stated in the specification.

Bytes are modelled as natural numbers and byte strings as `List Nat`.
The producer (`self._iter`) is modelled as the list of chunks it will
yield before raising `StopIteration`; a caller-supplied buffer `b` is a
list whose updated contents `readinto` returns alongside the count.
-/

namespace Iterable

/-- State of a `RawIterableReader`.  `iter = none` models `self._iter = None`
(the iterator handle, nulled on producer exhaustion or on close);
`buffer = none` models `self._buffer = None` (nulled only by `close`);
`total` is `self._total`; `closed` is the flag set by `io.RawIOBase.close`. -/
structure ReaderState where
  iter : Option (List (List Nat))
  buffer : Option (List Nat)
  total : Nat
  closed : Bool
deriving DecidableEq, Repr

/-- `RawIterableReader.__init__(iterable)`. -/
def initState (chunks : List (List Nat)) : ReaderState :=
  { iter := some chunks, buffer := some [], total := 0, closed := false }

/-- The ValueError raised by `self._checkClosed()` on a closed stream. -/
def closedMsg : String := "I/O operation on closed file."

/-- `RawIterableReader.close`: nulls the iterator handle and the buffer,
then `super().close()` sets the closed flag. -/
def close (st : ReaderState) : ReaderState :=
  { iter := none, buffer := none, total := st.total, closed := true }

/-- `RawIterableReader.tell`: checks for a closed stream, then returns
`self._total - len(self._buffer)`. -/
def tell (st : ReaderState) : Except String Nat :=
  if st.closed then .error closedMsg
  else .ok (st.total - (st.buffer.getD []).length)

/-- The `while len(self._buffer) < num` pull loop of `readinto`: repeatedly
take the next chunk, appending it to the buffer and adding its length to
`total`; on `StopIteration` (the chunk list is empty) the iterator handle
becomes `none`.  Returns the new iterator handle, buffer and total. -/
def pullLoop (num : Nat) : List (List Nat) → List Nat → Nat →
    Option (List (List Nat)) × List Nat × Nat
  | [], buf, total =>
      if buf.length < num then (none, buf, total) else (some [], buf, total)
  | c :: rest, buf, total =>
      if buf.length < num then pullLoop num rest (buf ++ c) (total + c.length)
      else (some (c :: rest), buf, total)

/-- The `if self._iter is not None` guard around the pull loop: when the
iterator handle was already released the state is left untouched. -/
def afterPull (st : ReaderState) (num : Nat) :
    Option (List (List Nat)) × List Nat × Nat :=
  match st.iter with
  | some chunks => pullLoop num chunks (st.buffer.getD []) st.total
  | none => (none, st.buffer.getD [], st.total)

/-- `RawIterableReader.readinto(b)`: checks for a closed stream, pulls
chunks until the buffer holds `len(b)` bytes or the producer is exhausted,
then copies bytes into the front of `b` and removes them from the buffer.
Returns the count, the updated contents of `b`, and the new state. -/
def readinto (st : ReaderState) (b : List Nat) :
    Except String (Nat × List Nat × ReaderState) :=
  if st.closed then .error closedMsg
  else if b.length ≥ (afterPull st b.length).2.1.length then
    .ok ((afterPull st b.length).2.1.length,
      (afterPull st b.length).2.1 ++ b.drop (afterPull st b.length).2.1.length,
      { iter := (afterPull st b.length).1, buffer := some [],
        total := (afterPull st b.length).2.2, closed := st.closed })
  else
    .ok (b.length,
      (afterPull st b.length).2.1.take b.length ++ b.drop b.length,
      { iter := (afterPull st b.length).1,
        buffer := some ((afterPull st b.length).2.1.drop b.length),
        total := (afterPull st b.length).2.2, closed := st.closed })

/-- A test-harness run: perform one `readinto` per requested length (into a
zero-filled fresh buffer of that length), collecting the delivered bytes in
order; a raised error stops the run. -/
def runReads : ReaderState → List Nat → List Nat × ReaderState
  | st, [] => ([], st)
  | st, n :: rest =>
    match readinto st (List.replicate n 0) with
    | .error _ => ([], st)
    | .ok (k, out, st') =>
      let p := runReads st' rest
      (out.take k ++ p.1, p.2)

/-- The bytes pulled from the producer but not yet delivered, followed by
the bytes the producer can still yield: everything the stream still owes. -/
def pendingBytes (st : ReaderState) : List Nat :=
  st.buffer.getD [] ++ (st.iter.getD []).flatten

/-- Length of the pending buffer (`len(self._buffer)`). -/
def bufLen (st : ReaderState) : Nat :=
  (st.buffer.getD []).length

/-- One `next()` outcome of a producer that may raise: either a yielded
chunk or a raised error (any exception other than `StopIteration`). -/
inductive PullEvent where
  | chunk (data : List Nat)
  | err (msg : String)
deriving DecidableEq, Repr

/-- Reader state over a producer that may raise, mirroring `ReaderState`. -/
structure EReaderState where
  iter : Option (List PullEvent)
  buffer : Option (List Nat)
  total : Nat
  closed : Bool
deriving DecidableEq, Repr

/-- `RawIterableReader.__init__` over a raising producer. -/
def initE (events : List PullEvent) : EReaderState :=
  { iter := some events, buffer := some [], total := 0, closed := false }

/-- The pull loop over a raising producer: only `StopIteration` is caught,
so a raised error escapes the loop; the error value carries the message
together with the fields as mutated so far (iterator advanced past the
raising call, buffer and total reflecting all chunks appended before it). -/
def pullLoopE (num : Nat) : List PullEvent → List Nat → Nat →
    Except (String × List PullEvent × List Nat × Nat)
      (Option (List PullEvent) × List Nat × Nat)
  | [], buf, total =>
      if buf.length < num then .ok (none, buf, total)
      else .ok (some [], buf, total)
  | e :: rest, buf, total =>
      if buf.length < num then
        match e with
        | .chunk c => pullLoopE num rest (buf ++ c) (total + c.length)
        | .err m => .error (m, rest, buf, total)
      else .ok (some (e :: rest), buf, total)

/-- The guarded pull over a raising producer. -/
def afterPullE (st : EReaderState) (num : Nat) :
    Except (String × List PullEvent × List Nat × Nat)
      (Option (List PullEvent) × List Nat × Nat) :=
  match st.iter with
  | some evs => pullLoopE num evs (st.buffer.getD []) st.total
  | none => .ok (none, st.buffer.getD [], st.total)

/-- `readinto` over a raising producer.  Returns the state the object is
left in together with either the raised error or the `(count, updated b)`
result.  A producer error propagates unmodified (not caught, wrapped or
retried) and the reader keeps its iterator handle, still open. -/
def readintoE (st : EReaderState) (b : List Nat) :
    EReaderState × Except String (Nat × List Nat) :=
  if st.closed then (st, .error closedMsg)
  else
    match afterPullE st b.length with
    | .error (m, rest, buf, total) =>
        ({ iter := some rest, buffer := some buf, total := total,
           closed := st.closed }, .error m)
    | .ok (it, buf, total) =>
        if b.length ≥ buf.length then
          ({ iter := it, buffer := some [], total := total, closed := st.closed },
            .ok (buf.length, buf ++ b.drop buf.length))
        else
          ({ iter := it, buffer := some (buf.drop b.length), total := total,
             closed := st.closed },
            .ok (b.length, buf.take b.length ++ b.drop b.length))

/-- `io.DEFAULT_BUFFER_SIZE`. -/
def DEFAULT_BUFFER_SIZE : Int := 8192

/-- The type of the object returned by `open_iterable`: the raw reader
itself, an `io.BufferedReader` with its buffer size, or an
`io.TextIOWrapper` (built over a buffered reader of the given size and
tagged with the original mode string). -/
inductive OpenResult where
  | raw
  | buffered (bufSize : Int)
  | text (bufSize : Int) (mode : String)
deriving DecidableEq, Repr

/-- `"r" in modes`. -/
def isReading (mode : String) : Bool := mode.toList.contains 'r'

/-- `"b" in modes`. -/
def isBinary (mode : String) : Bool := mode.toList.contains 'b'

/-- `"t" in modes or (reading and not binary)`: text is the default when
neither text nor binary is requested. -/
def isText (mode : String) : Bool :=
  mode.toList.contains 't' || (isReading mode && !isBinary mode)

/-- `buffering < 0` resolves to `io.DEFAULT_BUFFER_SIZE`. -/
def resolveBuffering (buffering : Int) : Int :=
  if buffering < 0 then DEFAULT_BUFFER_SIZE else buffering

/-- The validation and layer-selection logic of `open_iterable`: each
`raise ValueError(...)` becomes `.error`, and the returned object is
abstracted to its type and constructor arguments (`OpenResult`). -/
def open_iterable (mode : String) (buffering : Int)
    (encoding errors newline : Option String) : Except String OpenResult :=
  if mode.toList.any (fun c => !(c == 'r' || c == 't' || c == 'b'))
      || mode.toList.length > mode.toList.eraseDups.length then
    .error ("invalid mode: " ++ mode)
  else if !isReading mode then
    .error "Must specify read mode"
  else if isText mode && isBinary mode then
    .error "cannot have text and binary mode at once"
  else if isBinary mode && encoding.isSome then
    .error "binary mode does not take an encoding argument"
  else if isBinary mode && errors.isSome then
    .error "binary mode does not take an errors argument"
  else if isBinary mode && newline.isSome then
    .error "binary mode does not take a newline argument"
  else if isText mode && buffering == 0 then
    .error "cannot have unbuffered text I/O"
  else if buffering == 0 then
    .ok .raw
  else if isBinary mode then
    .ok (.buffered (resolveBuffering buffering))
  else
    .ok (.text (resolveBuffering buffering) mode)

/-- The pull loop conserves bytes (new buffer followed by what the producer
can still yield is the old buffer plus everything the producer held), keeps
`total - len(buffer)` unchanged, and releases the iterator handle exactly
when it stops with fewer than `num` bytes buffered. -/
theorem pullLoop_spec (num : Nat) (chunks : List (List Nat)) (buf : List Nat)
    (total : Nat) :
    (pullLoop num chunks buf total).2.1 ++
        (((pullLoop num chunks buf total).1.getD []).flatten)
      = buf ++ chunks.flatten
    ∧ (pullLoop num chunks buf total).2.2 + buf.length
        = total + (pullLoop num chunks buf total).2.1.length
    ∧ ((pullLoop num chunks buf total).2.1.length < num →
        (pullLoop num chunks buf total).1 = none) := by
  induction chunks generalizing buf total with
  | nil =>
    by_cases h : buf.length < num <;> simp [pullLoop, h]
  | cons c rest ih =>
    by_cases h : buf.length < num
    · have := ih (buf ++ c) (total + c.length)
      simp only [pullLoop, if_pos h]
      refine ⟨?_, ?_, this.2.2⟩
      · rw [this.1]; simp
      · have h2 := this.2.1
        simp only [List.length_append] at h2
        omega
    · simp [pullLoop, h]

/-- Same facts for the guarded pull (`if self._iter is not None`), stated
against the whole reader state. -/
theorem afterPull_spec (st : ReaderState) (num : Nat) :
    (afterPull st num).2.1 ++ (((afterPull st num).1.getD []).flatten)
      = pendingBytes st
    ∧ (afterPull st num).2.2 + bufLen st = st.total + (afterPull st num).2.1.length
    ∧ ((afterPull st num).2.1.length < num → (afterPull st num).1 = none) := by
  cases h : st.iter with
  | none => simp [afterPull, h, pendingBytes, bufLen]
  | some chunks =>
    have := pullLoop_spec num chunks (st.buffer.getD []) st.total
    simpa [afterPull, h, pendingBytes, bufLen] using this

/-- Unfolding equation for `readinto` on an open stream when the request is
at least as large as the post-pull buffer (the `num >= num_buffered` branch:
deliver the whole buffer and clear it). -/
theorem readinto_then (st : ReaderState) (b : List Nat) (h : st.closed = false)
    (hge : (afterPull st b.length).2.1.length ≤ b.length) :
    readinto st b = .ok ((afterPull st b.length).2.1.length,
      (afterPull st b.length).2.1 ++ b.drop (afterPull st b.length).2.1.length,
      { iter := (afterPull st b.length).1, buffer := some [],
        total := (afterPull st b.length).2.2, closed := st.closed }) := by
  rw [readinto, if_neg (by simp [h]), if_pos hge]

/-- Unfolding equation for `readinto` on an open stream when the post-pull
buffer is strictly larger than the request (the `else` branch: deliver the
first `len(b)` buffered bytes and delete them from the buffer). -/
theorem readinto_else (st : ReaderState) (b : List Nat) (h : st.closed = false)
    (hlt : b.length < (afterPull st b.length).2.1.length) :
    readinto st b = .ok (b.length,
      (afterPull st b.length).2.1.take b.length ++ b.drop b.length,
      { iter := (afterPull st b.length).1,
        buffer := some ((afterPull st b.length).2.1.drop b.length),
        total := (afterPull st b.length).2.2, closed := st.closed }) := by
  rw [readinto, if_neg (by simp [h]), if_neg (by omega)]

/-- One `readinto` call on an open stream: it succeeds; delivers at most
`len(b)` bytes; overwrites exactly the first `k` slots of `b` with the next
`k` pending bytes of the stream and leaves the rest of `b` unchanged; keeps
every remaining byte; preserves openness; keeps the position bookkeeping;
drains the stream when the request covers it; and ends in the fully-drained
state whenever it delivers fewer bytes than requested. -/
theorem readinto_step (st : ReaderState) (b : List Nat) (h : st.closed = false) :
    ∃ k out st',
      readinto st b = .ok (k, out, st')
      ∧ k ≤ b.length
      ∧ out.length = b.length
      ∧ out.take k ++ pendingBytes st' = pendingBytes st
      ∧ out.drop k = b.drop k
      ∧ st'.closed = false
      ∧ st'.buffer.isSome = true
      ∧ st'.total + bufLen st = st.total + bufLen st' + k
      ∧ ((pendingBytes st).length ≤ b.length → pendingBytes st' = [])
      ∧ (k < b.length → st'.iter = none ∧ st'.buffer = some []) := by
  obtain ⟨hcons, htot, hrel⟩ := afterPull_spec st b.length
  by_cases hge : (afterPull st b.length).2.1.length ≤ b.length
  · refine ⟨(afterPull st b.length).2.1.length,
      (afterPull st b.length).2.1 ++ b.drop (afterPull st b.length).2.1.length,
      { iter := (afterPull st b.length).1, buffer := some [],
        total := (afterPull st b.length).2.2, closed := st.closed },
      readinto_then st b h hge, hge, ?_, ?_, ?_, ?_, ?_, ?_, ?_, ?_⟩
    · simp; omega
    · rw [List.take_append_eq_append_take, List.take_length]
      simpa [pendingBytes] using hcons
    · rw [List.drop_append_eq_append_drop, List.drop_length]
      simp
    · exact h
    · simp
    · simp only [bufLen, Option.getD_some, List.length_nil] at htot ⊢
      omega
    · intro hple
      have hlen : (afterPull st b.length).2.1.length
          + (((afterPull st b.length).1.getD []).flatten).length
          = (pendingBytes st).length := by
        rw [← hcons]; simp
      by_cases hx : (afterPull st b.length).2.1.length < b.length
      · have := hrel hx
        simp [pendingBytes, this]
      · have : (((afterPull st b.length).1.getD []).flatten).length = 0 := by omega
        simp only [pendingBytes, Option.getD_some, List.nil_append]
        exact List.length_eq_zero.mp this
    · intro hk
      exact ⟨hrel hk, rfl⟩
  · push_neg at hge
    have hPpend : (afterPull st b.length).2.1.length ≤ (pendingBytes st).length := by
      rw [← hcons]; simp
    refine ⟨b.length,
      (afterPull st b.length).2.1.take b.length ++ b.drop b.length,
      { iter := (afterPull st b.length).1,
        buffer := some ((afterPull st b.length).2.1.drop b.length),
        total := (afterPull st b.length).2.2, closed := st.closed },
      readinto_else st b h hge, le_refl _, ?_, ?_, ?_, ?_, ?_, ?_, ?_, ?_⟩
    · simp; omega
    · have h1 : ((afterPull st b.length).2.1.take b.length).length = b.length := by
        simp; omega
      rw [List.take_append_eq_append_take, List.take_of_length_le (le_of_eq h1),
        h1, Nat.sub_self, List.take_zero, List.append_nil]
      simp only [pendingBytes, Option.getD_some] at hcons ⊢
      rw [← List.append_assoc, List.take_append_drop]
      exact hcons
    · have h1 : ((afterPull st b.length).2.1.take b.length).length = b.length := by
        simp; omega
      rw [List.drop_append_eq_append_drop, List.drop_of_length_le (le_of_eq h1), h1]
      simp
    · exact h
    · simp
    · simp only [bufLen, Option.getD_some, List.length_drop] at htot ⊢
      omega
    · intro hple; omega
    · intro hk; omega

/-- A whole run of reads on an open stream conserves bytes, keeps the
stream open with a live buffer, and keeps the position bookkeeping. -/
theorem runReads_spec (reqs : List Nat) (st : ReaderState)
    (h : st.closed = false) (hb : st.buffer.isSome = true) :
    (runReads st reqs).1 ++ pendingBytes (runReads st reqs).2 = pendingBytes st
    ∧ (runReads st reqs).2.closed = false
    ∧ (runReads st reqs).2.buffer.isSome = true
    ∧ (runReads st reqs).2.total + bufLen st
        = st.total + bufLen (runReads st reqs).2 + (runReads st reqs).1.length := by
  induction reqs generalizing st with
  | nil => simp [runReads, h, hb]
  | cons n rest ih =>
    obtain ⟨k, out, st', heq, hk, hlen, hcons, hdrop, hcl, hbs, htot, hdrain, hshort⟩ :=
      readinto_step st (List.replicate n 0) h
    obtain ⟨ih1, ih2, ih3, ih4⟩ := ih st' hcl hbs
    have hkb : k ≤ n := by simpa using hk
    have htk : (out.take k).length = k := by
      rw [List.length_take]
      simp at hlen
      omega
    simp only [runReads, heq]
    refine ⟨?_, ih2, ih3, ?_⟩
    · rw [List.append_assoc, ih1, hcons]
    · rw [List.length_append, htk]
      omega

/-- Runs compose: reading the requests `xs ++ ys` is reading `xs` and then
reading `ys` from the resulting state. -/
theorem runReads_append (xs ys : List Nat) (st : ReaderState)
    (h : st.closed = false) :
    runReads st (xs ++ ys)
      = ((runReads st xs).1 ++ (runReads (runReads st xs).2 ys).1,
         (runReads (runReads st xs).2 ys).2) := by
  induction xs generalizing st with
  | nil => simp [runReads]
  | cons n rest ih =>
    obtain ⟨k, out, st', heq, -, -, -, -, hcl, -⟩ :=
      readinto_step st (List.replicate n 0) h
    simp only [List.cons_append, runReads, heq, List.append_eq]
    rw [ih st' hcl]
    simp [List.append_assoc]

/-- A single read at least as large as everything the stream still owes
delivers exactly those remaining bytes. -/
theorem runReads_drain (st : ReaderState) (h : st.closed = false) (n : Nat)
    (hn : (pendingBytes st).length ≤ n) :
    (runReads st [n]).1 = pendingBytes st := by
  obtain ⟨k, out, st', heq, hk, hlen, hcons, hdrop, hcl, hbs, htot, hdrain, hshort⟩ :=
    readinto_step st (List.replicate n 0) h
  have hd : pendingBytes st' = [] := hdrain (by simpa using hn)
  rw [hd, List.append_nil] at hcons
  simp only [runReads, heq]
  simpa using hcons

/-- `readinto` on the fully-drained open state returns zero bytes, leaves
the caller buffer untouched and does not change the state. -/
theorem readinto_drained (s : ReaderState) (hi : s.iter = none)
    (hb : s.buffer = some []) (hc : s.closed = false) (b2 : List Nat) :
    readinto s b2 = .ok (0, b2, s) := by
  obtain ⟨i, bf, t, c⟩ := s
  simp only at hi hb hc
  subst hi; subst hb; subst hc
  simp [readinto, afterPull]

/-- Any run of reads on the fully-drained open state delivers nothing and
does not change the state. -/
theorem runReads_drained (s : ReaderState) (hi : s.iter = none)
    (hb : s.buffer = some []) (hc : s.closed = false) (reqs : List Nat) :
    runReads s reqs = ([], s) := by
  induction reqs with
  | nil => rfl
  | cons n rest ih =>
    simp [runReads, readinto_drained s hi hb hc (List.replicate n 0), ih]

/-- If the producer raises after yielding the chunks `pre` (and the buffer
is still short of the request at that point), the pull loop propagates the
very same error, with the bytes of `pre` appended to the buffer and counted
in `total`, and the iterator advanced past the raising call. -/
theorem pullLoopE_error (num : Nat) (m : String) (pre : List (List Nat))
    (rest : List PullEvent) (buf : List Nat) (total : Nat)
    (h : buf.length + pre.flatten.length < num) :
    pullLoopE num (pre.map PullEvent.chunk ++ PullEvent.err m :: rest) buf total
      = .error (m, rest, buf ++ pre.flatten, total + pre.flatten.length) := by
  induction pre generalizing buf total with
  | nil =>
    simp only [List.map_nil, List.nil_append, List.flatten_nil, List.append_nil]
    rw [pullLoopE, if_pos (by simpa using h)]
    simp
  | cons c pre ih =>
    simp only [List.map_cons, List.cons_append, List.flatten_cons] at h ⊢
    rw [pullLoopE, if_pos (by simp only [List.length_append] at h; omega)]
    rw [ih (buf ++ c) (total + c.length)
      (by simp only [List.length_append] at h ⊢; omega)]
    simp [List.append_assoc, List.length_append, Nat.add_assoc]

/-- C1: for every producer chunk list and every sequence of requested read
lengths, the bytes delivered by successive `readinto` calls, concatenated
in delivery order, are exactly the leading prefix of `c1 ++ c2 ++ ... ++ cn`
(the rest still pending, so nothing is lost, duplicated or reordered), and
a run extended by one sufficiently large request delivers exactly the whole
concatenation. -/
theorem readinto_concatenation (chunks : List (List Nat)) (reqs : List Nat) :
    (runReads (initState chunks) reqs).1
        ++ pendingBytes (runReads (initState chunks) reqs).2
      = chunks.flatten
    ∧ (runReads (initState chunks) (reqs ++ [chunks.flatten.length + 1])).1
      = chunks.flatten := by
  have hpend : pendingBytes (initState chunks) = chunks.flatten := by
    simp [pendingBytes, initState]
  obtain ⟨r1, r2, r3, r4⟩ := runReads_spec reqs (initState chunks) rfl rfl
  refine ⟨by rw [r1, hpend], ?_⟩
  rw [runReads_append reqs [chunks.flatten.length + 1] (initState chunks) rfl]
  show (runReads (initState chunks) reqs).1
      ++ (runReads (runReads (initState chunks) reqs).2 [chunks.flatten.length + 1]).1
    = chunks.flatten
  have hlen : (pendingBytes (runReads (initState chunks) reqs).2).length
      ≤ chunks.flatten.length + 1 := by
    have h1 : (pendingBytes (runReads (initState chunks) reqs).2).length
        ≤ (pendingBytes (initState chunks)).length := by
      rw [← r1]; simp
    rw [hpend] at h1; omega
  rw [runReads_drain (runReads (initState chunks) reqs).2 r2 _ hlen, r1, hpend]

/-- C2: after any sequence of reads, `tell` returns exactly the number of
bytes delivered so far, and that position equals
`self._total - len(self._buffer)`. -/
theorem tell_position (chunks : List (List Nat)) (reqs : List Nat) :
    tell (runReads (initState chunks) reqs).2
      = .ok (runReads (initState chunks) reqs).1.length
    ∧ (runReads (initState chunks) reqs).2.total
        - bufLen (runReads (initState chunks) reqs).2
      = (runReads (initState chunks) reqs).1.length := by
  obtain ⟨r1, r2, r3, r4⟩ := runReads_spec reqs (initState chunks) rfl rfl
  have hb0 : bufLen (initState chunks) = 0 := rfl
  have ht0 : (initState chunks).total = 0 := rfl
  rw [hb0, ht0] at r4
  constructor
  · rw [tell, if_neg (by simp [r2])]
    congr 1
    have hb : ((runReads (initState chunks) reqs).2.buffer.getD []).length
        = bufLen (runReads (initState chunks) reqs).2 := rfl
    rw [hb]
    omega
  · omega

/-- C3: a zero-length chunk is never treated as end-of-stream: the pull
loop behaves over any number of interspersed empty chunks exactly as it
does without them, and the producer `[b"1", b"", b"", b"2"]` read to the
end yields exactly `b"12"`. -/
theorem empty_chunk_not_eof :
    (∀ (m : Nat) (rest : List (List Nat)) (buf : List Nat) (total num : Nat),
        buf.length < num →
        pullLoop num (List.replicate m [] ++ rest) buf total
          = pullLoop num rest buf total)
    ∧ (runReads (initState [[49], [], [], [50]]) [5]).1 = [49, 50] := by
  constructor
  · intro m
    induction m with
    | zero => intro rest buf total num hlt; simp
    | succ m ih =>
      intro rest buf total num hlt
      rw [List.replicate_succ, List.cons_append, pullLoop, if_pos hlt]
      simpa using ih rest buf total num hlt
  · rfl

/-- Witness for C3 at a concrete input: three empty chunks in front of a
one-byte chunk do not change the pull. -/
theorem empty_chunk_not_eof_witness :
    pullLoop 1 (List.replicate 3 [] ++ [[7]]) [] 0 = pullLoop 1 [[7]] [] 0 :=
  empty_chunk_not_eof.1 3 [[7]] [] 0 1 (by decide)

/-- C4: once a read delivers fewer bytes than requested (the producer is
exhausted), every subsequent read of any length returns zero bytes with no
error and leaves the state unchanged. -/
theorem eof_idempotent (st : ReaderState) (b : List Nat) (k : Nat)
    (out : List Nat) (st' : ReaderState) (h : st.closed = false)
    (heq : readinto st b = .ok (k, out, st')) (hk : k < b.length) :
    (∀ b2 : List Nat, readinto st' b2 = .ok (0, b2, st'))
    ∧ ∀ reqs : List Nat, runReads st' reqs = ([], st') := by
  obtain ⟨k0, out0, st0, heq0, hk0, hlen0, hcons0, hdrop0, hcl0, hbs0, htot0,
    hdrain0, hshort0⟩ := readinto_step st b h
  rw [heq] at heq0
  obtain ⟨hks, houts, hsts⟩ :
      k = k0 ∧ out = out0 ∧ st' = st0 := by
    have := heq0
    simp only [Except.ok.injEq, Prod.mk.injEq] at this
    exact ⟨this.1, this.2.1, this.2.2⟩
  subst hks; subst houts; subst hsts
  obtain ⟨hiter, hbuf⟩ := hshort0 hk
  exact ⟨fun b2 => readinto_drained st' hiter hbuf hcl0 b2,
    fun reqs => runReads_drained st' hiter hbuf hcl0 reqs⟩

/-- Witness for C4 at a concrete input: an empty producer read with a
one-byte request delivers 0 < 1 bytes, and afterwards reads keep returning
zero bytes without error. -/
theorem eof_idempotent_witness :
    readinto (initState []) [0]
        = .ok (0, [0],
            { iter := none, buffer := some [], total := 0, closed := false })
    ∧ ((∀ b2 : List Nat,
          readinto { iter := none, buffer := some [], total := 0, closed := false } b2
            = .ok (0, b2,
                { iter := none, buffer := some [], total := 0, closed := false }))
        ∧ ∀ reqs : List Nat,
            runReads { iter := none, buffer := some [], total := 0, closed := false } reqs
              = ([],
                { iter := none, buffer := some [], total := 0, closed := false })) :=
  ⟨rfl, eof_idempotent (initState []) [0] 0 [0]
    { iter := none, buffer := some [], total := 0, closed := false }
    rfl rfl (by decide)⟩

/-- C5: `open_iterable` rejects the modes `""`, `"abc"`, `"rtb"` and
`"rt"` with `buffering=0` during validation (before any bytes are pulled),
and accepts `"r"`, `"rt"` and `"rb"` with default arguments. -/
theorem open_iterable_validation :
    open_iterable "" (-1) none none none = .error "Must specify read mode"
    ∧ open_iterable "abc" (-1) none none none = .error "invalid mode: abc"
    ∧ open_iterable "rtb" (-1) none none none
        = .error "cannot have text and binary mode at once"
    ∧ open_iterable "rt" 0 none none none
        = .error "cannot have unbuffered text I/O"
    ∧ open_iterable "r" (-1) none none none
        = .ok (.text DEFAULT_BUFFER_SIZE "r")
    ∧ open_iterable "rt" (-1) none none none
        = .ok (.text DEFAULT_BUFFER_SIZE "rt")
    ∧ open_iterable "rb" (-1) none none none
        = .ok (.buffered DEFAULT_BUFFER_SIZE) :=
  ⟨rfl, rfl, rfl, rfl, rfl, rfl, rfl⟩

/-- C6: whenever `open_iterable` passes validation, the type of the
returned object is determined by mode and buffering: `buffering=0` (binary
only) returns the raw reader itself; `buffering≠0` with binary mode returns
an `io.BufferedReader`; text mode returns an `io.TextIOWrapper`. -/
theorem open_iterable_layers (mode : String) (buffering : Int)
    (encoding errors newline : Option String) (r : OpenResult)
    (h : open_iterable mode buffering encoding errors newline = .ok r) :
    (buffering = 0 → isBinary mode = true ∧ r = .raw)
    ∧ (isBinary mode = true → buffering ≠ 0 →
        r = .buffered (resolveBuffering buffering))
    ∧ (isText mode = true → r = .text (resolveBuffering buffering) mode) := by
  rw [open_iterable] at h
  split_ifs at h with h1 h2 h3 h4 h5 h6 h7 h8 h9 <;>
    simp_all [isText]

/-- Witness for C6 at a concrete input: `"rb"` with `buffering=0` returns
the raw reader. -/
theorem open_iterable_layers_witness :
    open_iterable "rb" 0 none none none = .ok .raw
    ∧ (((0 : Int) = 0 → isBinary "rb" = true ∧ OpenResult.raw = .raw)
        ∧ (isBinary "rb" = true → (0 : Int) ≠ 0 →
            OpenResult.raw = .buffered (resolveBuffering 0))
        ∧ (isText "rb" = true → OpenResult.raw = .text (resolveBuffering 0) "rb")) :=
  ⟨rfl, open_iterable_layers "rb" 0 none none none .raw rfl⟩

/-- C7: after `close`, both `readinto` and `tell` raise the closed-stream
error. -/
theorem closed_operations_fail (st : ReaderState) (b : List Nat) :
    readinto (close st) b = .error closedMsg
    ∧ tell (close st) = .error closedMsg :=
  ⟨rfl, rfl⟩

/-- C8 counterexample: after a producer error escapes a read (the error is
delivered unmodified), the adapter still holds its iterator handle, and the
very next read pulls from the producer again and delivers the next chunk —
so the adapter does attempt further pulls afterward. -/
theorem producer_error_counterexample :
    (readintoE (initE [PullEvent.err "boom", PullEvent.chunk [7]]) [0]).2
        = Except.error "boom"
    ∧ (readintoE (initE [PullEvent.err "boom", PullEvent.chunk [7]]) [0]).1.iter
        = some [PullEvent.chunk [7]]
    ∧ readintoE (readintoE (initE [PullEvent.err "boom", PullEvent.chunk [7]]) [0]).1 [0]
        = ({ iter := some [], buffer := some [], total := 1, closed := false },
            Except.ok (1, [7])) :=
  ⟨rfl, rfl, rfl⟩

/-- C8 (amended): a producer error raised during a pull propagates
unmodified through `readinto` — not caught, wrapped or retried — with the
bytes of the chunks yielded before it kept in the buffer and counted in
`total`; the stream stays open and keeps its iterator handle (pointing past
the raising call), so later reads resume pulling. -/
theorem producer_error_propagates (st : EReaderState) (b : List Nat)
    (m : String) (pre : List (List Nat)) (rest : List PullEvent)
    (hc : st.closed = false)
    (hi : st.iter = some (pre.map PullEvent.chunk ++ PullEvent.err m :: rest))
    (hlen : (st.buffer.getD []).length + pre.flatten.length < b.length) :
    readintoE st b
      = ({ iter := some rest,
           buffer := some (st.buffer.getD [] ++ pre.flatten),
           total := st.total + pre.flatten.length, closed := false },
          Except.error m) := by
  rw [readintoE, if_neg (by simp [hc])]
  simp only [afterPullE, hi]
  rw [pullLoopE_error b.length m pre rest (st.buffer.getD []) st.total hlen]
  rw [hc]

/-- Witness for C8 at a concrete input: a producer that immediately raises
propagates its error through the first read. -/
theorem producer_error_propagates_witness :
    readintoE (initE [PullEvent.err "x"]) [0]
      = ({ iter := some [], buffer := some [], total := 0, closed := false },
          Except.error "x") := by
  have h := producer_error_propagates (initE [PullEvent.err "x"]) [0] "x" [] []
    rfl rfl (by decide)
  simpa using h

/-- C9 counterexample: reading an exhausted producer on a stream that was
never closed leaves a reachable state in which the stream is still open but
the producer handle has already been nulled — release happens at
exhaustion, before close. -/
theorem release_timing_counterexample :
    (runReads (initState []) [1]).2.closed = false
    ∧ (runReads (initState []) [1]).2.iter = none :=
  ⟨rfl, rfl⟩

/-- C9 (amended): in every state reachable by reads without close, the
stream is open and still holds its pending buffer; the producer handle is
nulled at close or as soon as the producer signals exhaustion during a read
(at which point all produced bytes are accounted for), and `close` nulls
both the handle and the buffer. -/
theorem release_timing (chunks : List (List Nat)) (reqs : List Nat) :
    (runReads (initState chunks) reqs).2.closed = false
    ∧ (runReads (initState chunks) reqs).2.buffer.isSome = true
    ∧ ((runReads (initState chunks) reqs).2.iter = none →
        (runReads (initState chunks) reqs).1
            ++ (runReads (initState chunks) reqs).2.buffer.getD []
          = chunks.flatten)
    ∧ (close (runReads (initState chunks) reqs).2).iter = none
    ∧ (close (runReads (initState chunks) reqs).2).buffer = none := by
  obtain ⟨r1, r2, r3, r4⟩ := runReads_spec reqs (initState chunks) rfl rfl
  refine ⟨r2, r3, ?_, rfl, rfl⟩
  intro hnone
  have hp : pendingBytes (runReads (initState chunks) reqs).2
      = (runReads (initState chunks) reqs).2.buffer.getD [] := by
    simp [pendingBytes, hnone]
  have hpend : pendingBytes (initState chunks) = chunks.flatten := by
    simp [pendingBytes, initState]
  rw [← hp, r1, hpend]

/-- Witness for C9 at a concrete input: the empty producer is exhausted by
the first read and every byte (none) is accounted for. -/
theorem release_timing_witness :
    (runReads (initState ([] : List (List Nat))) [1]).2.iter = none
    ∧ (runReads (initState ([] : List (List Nat))) [1]).1
          ++ (runReads (initState ([] : List (List Nat))) [1]).2.buffer.getD []
        = ([] : List (List Nat)).flatten :=
  ⟨rfl, (release_timing [] [1]).2.2.1 rfl⟩

/-- C10: a successful `readinto` on an open stream delivers `k ≤ len(b)`
bytes, overwrites exactly the first `k` slots of `b` with the next `k`
bytes of the stream, and leaves slots `k` to `len(b)-1` of `b` unchanged. -/
theorem readinto_frame (st : ReaderState) (b : List Nat) (k : Nat)
    (out : List Nat) (st' : ReaderState) (h : st.closed = false)
    (heq : readinto st b = .ok (k, out, st')) :
    k ≤ b.length
    ∧ out.length = b.length
    ∧ out.take k = (pendingBytes st).take k
    ∧ out.drop k = b.drop k := by
  obtain ⟨k0, out0, st0, heq0, hk0, hlen0, hcons0, hdrop0, hcl0, hbs0, htot0,
    hdrain0, hshort0⟩ := readinto_step st b h
  rw [heq] at heq0
  obtain ⟨hks, houts, hsts⟩ :
      k = k0 ∧ out = out0 ∧ st' = st0 := by
    have := heq0
    simp only [Except.ok.injEq, Prod.mk.injEq] at this
    exact ⟨this.1, this.2.1, this.2.2⟩
  subst hks; subst houts; subst hsts
  refine ⟨hk0, hlen0, ?_, hdrop0⟩
  have hlk : (out.take k).length = k := by
    rw [List.length_take]
    omega
  rw [← hcons0, List.take_append_eq_append_take,
    List.take_of_length_le (le_of_eq hlk), hlk, Nat.sub_self, List.take_zero,
    List.append_nil]

/-- Witness for C10 at a concrete input: a one-chunk producer read into a
two-byte buffer overwrites the first slot and leaves the second alone. -/
theorem readinto_frame_witness :
    readinto (initState [[7]]) [5, 6]
        = .ok (1, [7, 6],
            { iter := none, buffer := some [], total := 1, closed := false })
    ∧ (1 ≤ [5, 6].length
        ∧ [7, 6].length = [5, 6].length
        ∧ [7, 6].take 1 = (pendingBytes (initState [[7]])).take 1
        ∧ [7, 6].drop 1 = [5, 6].drop 1) :=
  ⟨rfl, readinto_frame (initState [[7]]) [5, 6] 1 [7, 6]
    { iter := none, buffer := some [], total := 1, closed := false } rfl rfl⟩

end Iterable
